import Mathlib

/-!
Verification development for the `codecrafters-redis-rust` repository.

The Rust sources are shallowly embedded:
* `src/tokenizer.rs` — `Token`, `parse_resp_tokens_from_str` (here `tokenize`)
  and `serialize_tokens`;
* `src/parser.rs` — `ParserValue`, `ParserValue::to_tokens`, `parse_tokens`,
  `tokens_to_simple_string`, `tokens_to_bulk_string`, `tokens_to_array`;
* `src/data_core.rs` — `DataValue`, the keyspace, `DataCore::process_command`
  (one iteration of its receive loop, here `stepCommand`) and
  `DataCore::remove_expired_values`;
* `src/server.rs` / `src/data_core.rs` — the replica-handshake wait loops.

Conventions: Rust `String` data is `List Char`; machine integers (`i64`,
`usize`) are `Int`/`Nat` (the source never relies on wraparound: its integer
conversions `parse().unwrap()` and `try_into()` panic or error instead of
wrapping); clock reads (`Utc::now().timestamp_nanos_opt().unwrap()`) become
explicit `Int` parameters, one per sampling site.  Fallible Rust code returns
`PRes`: `.ok` for `Ok`/`Some`, `.err` for `Err`/`None`, `.panic` for a panic
(`expect`/`unwrap`/`todo!`).  Functions whose Rust recursion is guided by an
iterator carry an explicit fuel argument that strictly exceeds any possible
recursion depth for the given input, so the fuel-exhaustion branch is
unreachable; wrappers choose such a fuel from the input length.
-/

/-- Outcome of fallible Rust code: `Ok`/`Some`, `Err`/`None`, or a panic. -/
inductive PRes (α : Type) where
  | ok (a : α)
  | err
  | panic
deriving DecidableEq, Repr

/-- Token of `src/tokenizer.rs`: the RESP sigil markers, an integer literal,
a raw string run, and the `\r\n` separator. -/
inductive Token where
  | plus
  | hyphen
  | colon
  | dollar
  | asterisk
  | underscore
  | poundSign
  | comma
  | leftParenthesis
  | exclamation
  | equals
  | percentage
  | tilda
  | greaterThan
  | string (s : List Char)
  | number (n : Int)
  | separator
deriving DecidableEq, Repr

/-- Rust `Token::is_separator`. -/
def Token.is_separator : Token → Bool
  | .separator => true
  | _ => false

/-- Rust `Token::is_string`. -/
def Token.is_string : Token → Bool
  | .string _ => true
  | _ => false

/-- Rust `Token::is_plus`. -/
def Token.is_plus : Token → Bool
  | .plus => true
  | _ => false

/-- Rust `Token::is_dollar`. -/
def Token.is_dollar : Token → Bool
  | .dollar => true
  | _ => false

/-- Rust `Token::is_number`. -/
def Token.is_number : Token → Bool
  | .number _ => true
  | _ => false

/-- Rust `Token::is_hyphen`. -/
def Token.is_hyphen : Token → Bool
  | .hyphen => true
  | _ => false

/-- Rust `Token::is_asterisk`. -/
def Token.is_asterisk : Token → Bool
  | .asterisk => true
  | _ => false

/-- Decimal digit character for a digit value below ten. -/
def digitChar (d : Nat) : Char := Char.ofNat (48 + d)

/-- Little-endian decimal digits of `n`, with fuel (`fuel ≥ n` suffices since
`n / 10 < n` for positive `n`). -/
def toDigitsRev : Nat → Nat → List Nat
  | 0, _ => []
  | f + 1, n => if n = 0 then [] else n % 10 :: toDigitsRev f (n / 10)

/-- Decimal rendering of a natural number, as Rust `u64::to_string` would
print it. -/
def natChars (n : Nat) : List Char :=
  if n = 0 then [('0')] else ((toDigitsRev n n).reverse).map digitChar

/-- Decimal rendering of an `i64`, as Rust `i64::to_string`. -/
def intChars (i : Int) : List Char :=
  if i < 0 then ('-') :: natChars i.natAbs else natChars i.toNat

/-- Numeric value of a digit run, as Rust `str::parse::<i64>` computes it on
the all-digit strings produced by the scanner (overflow ignored: the claims
never exercise 19-digit literals). -/
def parseNat (cs : List Char) : Nat :=
  cs.foldl (fun a c => 10 * a + (c.toNat - 48)) 0

/-- Rust `Token::to_string`: text of a `String` token, decimal rendering of a
`Number` token, nothing otherwise. -/
def Token.to_string : Token → Option (List Char)
  | .string s => some s
  | .number n => some (intChars n)
  | _ => none

/-- Rust `Token::to_i64`. -/
def Token.to_i64 : Token → Option Int
  | .number n => some n
  | _ => none

/-- Rust `Token::to_usize`: `i64::try_into::<usize>()`, failing on negatives. -/
def Token.to_usize : Token → Option Nat
  | .number n => if 0 ≤ n then some n.toNat else none
  | _ => none

/-- The sigil-to-token table of the scanner's `match` in
`parse_resp_tokens_from_str` (src/tokenizer.rs lines 86–99). -/
def specialChar? (c : Char) : Option Token :=
  if c = '+' then some .plus
  else if c = '-' then some .hyphen
  else if c = ':' then some .colon
  else if c = '$' then some .dollar
  else if c = '*' then some .asterisk
  else if c = '_' then some .underscore
  else if c = '#' then some .poundSign
  else if c = ',' then some .comma
  else if c = '(' then some .leftParenthesis
  else if c = '!' then some .exclamation
  else if c = '=' then some .equals
  else if c = '%' then some .percentage
  else if c = '~' then some .tilda
  else if c = '>' then some .greaterThan
  else none

/-- Inner loop of the scanner's default branch (src/tokenizer.rs lines
125–137): scan forward for a `\r\n` pair, returning the characters before it
and the rest after it, or `none` when the input ends first (in which case the
Rust loop exhausts the iterator and pushes nothing). -/
def splitRaw : List Char → Option (List Char × List Char)
  | [] => none
  | _ :: [] => none
  | c :: d :: rest =>
      if c = '\r' ∧ d = '\n' then some ([], rest)
      else
        match splitRaw (d :: rest) with
        | some (s, r) => some (c :: s, r)
        | none => none

/-- Whether a character sequence contains an adjacent `\r\n` pair — the
condition under which the scanner's raw-run loop would stop inside it. -/
def hasCRLF : List Char → Bool
  | [] => false
  | _ :: [] => false
  | c :: d :: rest => (c == '\r' && d == '\n') || hasCRLF (d :: rest)

/-- One pass of Rust `parse_resp_tokens_from_str` (src/tokenizer.rs lines
80–142) with fuel; every iteration of the Rust `while` consumes at least one
character, so fuel exceeding the input length makes the `0` branch
unreachable. -/
def tokenizeF : Nat → List Char → List Token
  | 0, _ => []
  | _ + 1, [] => []
  | f + 1, c :: rest =>
      match specialChar? c with
      | some t => t :: tokenizeF f rest
      | none =>
          if c.isDigit then
            Token.number (Int.ofNat (parseNat (c :: rest.takeWhile Char.isDigit)))
              :: tokenizeF f (rest.dropWhile Char.isDigit)
          else if c = '\r' then
            match rest with
            | [] => Token.string [('\r')] :: tokenizeF f rest
            | d :: rest2 =>
                if d = '\n' then Token.separator :: tokenizeF f rest2
                else Token.string [('\r')] :: tokenizeF f (d :: rest2)
          else
            match splitRaw rest with
            | some (s, r) => Token.string (c :: s) :: Token.separator :: tokenizeF f r
            | none => []

/-- Rust `parse_resp_tokens_from_str`; the `Ok` wrapper is dropped because the
scanner never fails. -/
def tokenize (cs : List Char) : List Token :=
  tokenizeF (cs.length + 1) cs

/-- Wire characters of one token, the `match` inside Rust `serialize_tokens`
(src/tokenizer.rs lines 150–173). -/
def tokenChars : Token → List Char
  | .number n => intChars n
  | .asterisk => [('*')]
  | .dollar => [('$')]
  | .string s => s
  | .plus => [('+')]
  | .separator => [('\r'), ('\n')]
  | .greaterThan => [('>')]
  | .tilda => [('~')]
  | .percentage => [('%')]
  | .equals => [('=')]
  | .exclamation => [('!')]
  | .leftParenthesis => [('(')]
  | .comma => [(',')]
  | .poundSign => [('#')]
  | .underscore => [('_')]
  | .colon => [(':')]
  | .hyphen => [('-')]

/-- Concatenated wire characters of a token sequence. -/
def serializeChars (ts : List Token) : List Char :=
  (ts.map tokenChars).flatten

/-- Rust `serialize_tokens` (src/tokenizer.rs lines 144–180): errors on an
empty sequence, otherwise concatenates every token's characters. -/
def serialize_tokens (ts : List Token) : Option (List Char) :=
  if ts.length < 1 then none else some (serializeChars ts)

/-- Protocol value of `src/parser.rs`: simple string, bulk string, array,
null bulk string. -/
inductive ParserValue where
  | simpleString (s : List Char)
  | bulkString (s : List Char)
  | array (vs : List ParserValue)
  | nullBulkString
deriving Repr

/-- Rust `ParserValue::is_string`. -/
def ParserValue.is_string : ParserValue → Bool
  | .simpleString _ => true
  | .bulkString _ => true
  | _ => false

/-- Rust `ParserValue::is_array`. -/
def ParserValue.is_array : ParserValue → Bool
  | .array _ => true
  | _ => false

/-- Rust `ParserValue::to_string`. -/
def ParserValue.to_string : ParserValue → Option (List Char)
  | .simpleString s => some s
  | .bulkString s => some s
  | _ => none

mutual

/-- Rust `ParserValue::to_tokens` (src/parser.rs lines 40–69). -/
def ParserValue.to_tokens : ParserValue → List Token
  | .simpleString s => [.plus, .string s, .separator]
  | .bulkString s =>
      [.dollar, .number (Int.ofNat s.length), .separator, .string s, .separator]
  | .array vs =>
      .asterisk :: .number (Int.ofNat vs.length) :: .separator :: listToTokens vs
  | .nullBulkString => [.dollar, .number (-1), .separator]

/-- Token sequences of an array's elements, in order (the `for` loop of the
`Array` arm of `to_tokens`). -/
def listToTokens : List ParserValue → List Token
  | [] => []
  | v :: vs => v.to_tokens ++ listToTokens vs

end

/-- Rust `tokens_to_simple_string` (src/parser.rs lines 111–130), with the
iterator made explicit: the unconsumed suffix is returned alongside the
value.  `expect` on a missing token or a token without text is a panic. -/
def tokens_to_simple_string (ts : List Token) : PRes (ParserValue × List Token) :=
  match ts with
  | [] => .err
  | t :: rest =>
      if t.is_plus then
        match rest with
        | [] => .panic
        | str_tok :: rest2 =>
            match rest2 with
            | [] => .panic
            | sep :: rest3 =>
                if sep.is_separator then
                  match str_tok.to_string with
                  | some s => .ok (.simpleString s, rest3)
                  | none => .panic
                else .err
      else .err

/-- Character reconstruction of one payload token, the `match` inside Rust
`tokens_to_bulk_string` (src/parser.rs lines 161–209): markers re-render to
their sigil, numbers to decimal text, separators to nothing. -/
def reconstructChars : Token → List Char
  | .plus => [('+')]
  | .hyphen => [('-')]
  | .colon => [(':')]
  | .dollar => [('$')]
  | .asterisk => [('*')]
  | .underscore => [('_')]
  | .poundSign => [('#')]
  | .comma => [(',')]
  | .leftParenthesis => [('(')]
  | .exclamation => [('!')]
  | .equals => [('=')]
  | .percentage => [('%')]
  | .tilda => [('~')]
  | .greaterThan => [('>')]
  | .string s => s
  | .number n => intChars n
  | .separator => []

/-- Payload text rebuilt from the tokens before the closing separator. -/
def bulkPayload (rest : List Token) : List Char :=
  ((rest.takeWhile fun t => !t.is_separator).map reconstructChars).flatten

/-- Rust `tokens_to_bulk_string` (src/parser.rs lines 132–215): marker, a
`Number` declared length, a separator, then every token up to the next
separator is reconstructed into text; `String::with_capacity` panics on a
negative length (`to_usize().expect`), and a reconstructed length different
from the declared one is an error. -/
def tokens_to_bulk_string (ts : List Token) : PRes (ParserValue × List Token) :=
  match ts with
  | [] => .err
  | t :: rest =>
      if t.is_dollar then
        match rest with
        | [] => .panic
        | size :: rest2 =>
            if size.is_number then
              match rest2 with
              | [] => .panic
              | sep :: rest3 =>
                  if sep.is_separator then
                    match rest3.dropWhile (fun t => !t.is_separator) with
                    | [] => .panic
                    | sep2 :: rest4 =>
                        if sep2.is_separator then
                          match size.to_usize with
                          | none => .panic
                          | some cap =>
                              let s := bulkPayload rest3
                              if s.length ≠ cap then .err
                              else .ok (.bulkString s, rest4)
                        else .err
                  else .err
            else .err
      else .err

mutual

/-- Rust `tokens_to_array` (src/parser.rs lines 217–276) with fuel: marker,
a `Number` declared count (negative fails, zero succeeds immediately without
consuming the separator), a separator, then exactly `count` elements.  Fuel
decreases on every call; the wrapper `tokens_to_array` supplies more fuel
than any recursion can use, so the `0` branches are unreachable there. -/
def tokens_to_array_fuel : Nat → List Token → PRes (ParserValue × List Token)
  | 0, _ => .panic
  | _ + 1, [] => .err
  | f + 1, t :: rest =>
      if t.is_asterisk then
        match rest with
        | [] => .panic
        | len :: rest2 =>
            if len.is_number then
              match len.to_i64 with
              | none => .panic
              | some n =>
                  if n < 0 then .err
                  else if n = 0 then .ok (.array [], rest2)
                  else
                    match rest2 with
                    | [] => .err
                    | sep :: rest3 =>
                        if sep.is_separator then
                          match parse_elems_fuel f n.toNat rest3 with
                          | .ok (vs, r) => .ok (.array vs, r)
                          | .err => .err
                          | .panic => .panic
                        else .err
            else .err
      else .err

/-- The element loop of Rust `tokens_to_array` (src/parser.rs lines
241–273), one iteration per count. -/
def parse_elems_fuel : Nat → Nat → List Token → PRes (List ParserValue × List Token)
  | 0, _, _ => .panic
  | _ + 1, 0, ts => .ok ([], ts)
  | f + 1, n + 1, ts =>
      match parse_elem_fuel f ts with
      | .ok (v, rest) =>
          match parse_elems_fuel f n rest with
          | .ok (vs, r) => .ok (v :: vs, r)
          | .err => .err
          | .panic => .panic
      | .err => .err
      | .panic => .panic

/-- The per-element dispatch inside the loop of Rust `tokens_to_array`
(src/parser.rs lines 242–272): peek the next token (`expect` panics on
exhaustion), dispatch on `+`/`$`/`*`, fail on anything else. -/
def parse_elem_fuel : Nat → List Token → PRes (ParserValue × List Token)
  | 0, _ => .panic
  | f + 1, ts =>
      match ts with
      | [] => .panic
      | t :: _ =>
          match t with
          | .plus => tokens_to_simple_string ts
          | .dollar => tokens_to_bulk_string ts
          | .asterisk => tokens_to_array_fuel f ts
          | _ => .err

end

/-- Rust `tokens_to_array` at adequate fuel: the recursion enters
`tokens_to_array_fuel` at most once per three tokens of input (an array
header is three tokens and every element at least two), and each entry costs
at most three fuel ticks, so `3 * length + 3` can never be exhausted. -/
def tokens_to_array (ts : List Token) : PRes (ParserValue × List Token) :=
  tokens_to_array_fuel (3 * ts.length + 3) ts

/-- Rust `parse_tokens` (src/parser.rs lines 72–109): empty input and a
non-marker first token give `None` (`.err` here); otherwise dispatch on the
first token, collapsing sub-errors to `None` and dropping the leftover
iterator. -/
def parse_tokens (ts : List Token) : PRes ParserValue :=
  match ts with
  | [] => .err
  | t :: _ =>
      match t with
      | .plus =>
          match tokens_to_simple_string ts with
          | .ok (v, _) => .ok v
          | .err => .err
          | .panic => .panic
      | .dollar =>
          match tokens_to_bulk_string ts with
          | .ok (v, _) => .ok v
          | .err => .err
          | .panic => .panic
      | .asterisk =>
          match tokens_to_array ts with
          | .ok (v, _) => .ok v
          | .err => .err
          | .panic => .panic
      | _ => .err

/-- Rust `DataValue` (src/data_core.rs lines 33–37): a stored protocol value
with an optional absolute expiry timestamp in nanoseconds. -/
structure DataValue where
  parser_value : ParserValue
  expiry_in_nanoseconds : Option Int

/-- Rust `DataValue::has_expired` (src/data_core.rs lines 55–62) at clock
reading `now`: no expiry never expires; otherwise expired iff `now` is
strictly past the stamp. -/
def has_expired (now : Int) (dv : DataValue) : Bool :=
  match dv.expiry_in_nanoseconds with
  | none => false
  | some e => decide (e < now)

/-- The keyspace `HashMap<String, DataValue>` of `DataCore`, modelled
extensionally as a partial map from key text to stored entry. -/
def DataSet : Type := List Char → Option DataValue

/-- The everywhere-undefined keyspace (`HashMap::new`). -/
def emptyDataSet : DataSet := fun _ => none

/-- `HashMap::insert`: bind one key, leaving the rest unchanged. -/
def dsInsert (k : List Char) (dv : DataValue) (ds : DataSet) : DataSet :=
  fun k2 => if k2 = k then some dv else ds k2

/-- `HashMap::remove`: unbind one key. -/
def dsRemove (k : List Char) (ds : DataSet) : DataSet :=
  fun k2 => if k2 = k then none else ds k2

/-- Rust `DataCore::remove_expired_values` (src/data_core.rs lines 265–268)
at clock reading `now`: `retain(|_, v| !v.has_expired())`. -/
def remove_expired_values (now : Int) (ds : DataSet) : DataSet :=
  fun k =>
    match ds k with
    | some dv => if has_expired now dv then none else some dv
    | none => none

/-- Rust `ReplicationRole` (src/data_core.rs lines 65–78). -/
inductive ReplicationRole where
  | master
  | slave
deriving DecidableEq, Repr

/-- Display text of a role. -/
def roleChars : ReplicationRole → List Char
  | .master => ("master").toList
  | .slave => ("slave").toList

/-- The replication-related fields of `DataCore` (src/data_core.rs lines
80–95), the ones the `info` arm reads. -/
structure ReplicationSettings where
  replication_role : ReplicationRole
  connected_slaves : Int
  master_replid : List Char
  master_reploffset : Int
  second_reploffset : Int
  repl_backlog_active : Int
  repl_backlog_size : Int
  repl_backlog_first_byte_offset : Int
  repl_backlog_histlen : Int

/-- The `format!` string of the `info` arm (src/data_core.rs lines 234–245),
including the source's `repl_backlog_histen` typo. -/
def infoChars (sett : ReplicationSettings) : List Char :=
  ("# Replication\nrole:").toList ++ roleChars sett.replication_role
    ++ ("\nconnected_slaves:").toList ++ intChars sett.connected_slaves
    ++ ("\nmaster_replid:").toList ++ sett.master_replid
    ++ ("\nmaster_repl_offset:").toList ++ intChars sett.master_reploffset
    ++ ("\nsecond_repl_offset:").toList ++ intChars sett.second_reploffset
    ++ ("\nrepl_backlog_active:").toList ++ intChars sett.repl_backlog_active
    ++ ("\nrepl_backlog_size:").toList ++ intChars sett.repl_backlog_size
    ++ ("\nrepl_backlog_first_byte_offset:").toList
    ++ intChars sett.repl_backlog_first_byte_offset
    ++ ("\nrepl_backlog_histen:").toList ++ intChars sett.repl_backlog_histlen

/-- ASCII lowercasing, Rust `str::to_lowercase` on the command verbs the
engine compares against. -/
def toLowerL (s : List Char) : List Char := s.map Char.toLower

/-- Rust `str::parse::<i64>` on the `PX` millisecond argument: an optional
sign followed by at least one digit. -/
def parseI64? (cs : List Char) : Option Int :=
  match cs with
  | ('-') :: ds =>
      if ds ≠ [] ∧ ds.all Char.isDigit then some (-(Int.ofNat (parseNat ds))) else none
  | ('+') :: ds =>
      if ds ≠ [] ∧ ds.all Char.isDigit then some (Int.ofNat (parseNat ds)) else none
  | ds =>
      if ds ≠ [] ∧ ds.all Char.isDigit then some (Int.ofNat (parseNat ds)) else none

/-- Whether the dispatch arm fell through to the post-command sweep
(`ArmFlow.more`) or executed one of the `return` statements that leave
`process_command` — and with it the whole receive loop — early
(`ArmFlow.halt`). -/
inductive ArmFlow where
  | more
  | halt
deriving DecidableEq, Repr

/-- Response tokens of the `echo` arm (src/data_core.rs lines 139–152):
every remaining argument with text re-emitted as a bulk string, arguments
without text skipped. -/
def echoTokens (args : List ParserValue) : List Token :=
  (args.map fun v =>
    match v.to_string with
    | some s => (ParserValue.bulkString s).to_tokens
    | none => []).flatten

/-- The `match` over the lower-cased verb in `DataCore::process_command`
(src/data_core.rs lines 132–259).  `now` is the clock reading used inside the
arm (`set_expiry` or `has_expired`).  The result carries the response tokens
sent on the channel, the keyspace afterwards, and whether control falls
through to `remove_expired_values` (`.more`) or `return`s out of the loop
(`.halt`).  Unknown verbs hit `todo!()`, a panic. -/
def dispatchVerb (now : Int) (sett : ReplicationSettings) (ds : DataSet)
    (verb : List Char) (args : List ParserValue) :
    PRes (List Token × DataSet × ArmFlow) :=
  if verb = ("ping").toList then
    .ok ((ParserValue.simpleString (("PONG").toList)).to_tokens, ds, .more)
  else if verb = ("echo").toList then
    .ok (echoTokens args, ds, .more)
  else if verb = ("set").toList then
    match args with
    | key :: value :: afterKV =>
        if key.is_string then
          match key.to_string with
          | none => .panic
          | some ks =>
              match afterKV with
              | a3 :: after3 =>
                  if a3.is_string then
                    match a3.to_string with
                    | none => .panic
                    | some _ =>
                        match after3 with
                        | a4 :: _ =>
                            if a4.is_string then
                              match a4.to_string with
                              | none => .panic
                              | some lenStr =>
                                  match parseI64? lenStr with
                                  | none => .panic
                                  | some ms =>
                                      .ok ((ParserValue.simpleString (("OK").toList)).to_tokens,
                                        dsInsert ks ⟨value, some (now + ms * 1000000)⟩ ds, .more)
                            else
                              .ok ((ParserValue.simpleString (("OK").toList)).to_tokens,
                                dsInsert ks ⟨value, none⟩ ds, .more)
                        | [] =>
                            .ok ((ParserValue.simpleString (("OK").toList)).to_tokens,
                              dsInsert ks ⟨value, none⟩ ds, .more)
                  else
                    .ok ((ParserValue.simpleString (("OK").toList)).to_tokens,
                      dsInsert ks ⟨value, none⟩ ds, .more)
              | [] =>
                  .ok ((ParserValue.simpleString (("OK").toList)).to_tokens,
                    dsInsert ks ⟨value, none⟩ ds, .more)
        else .ok ((ParserValue.nullBulkString).to_tokens, ds, .halt)
    | _ => .panic
  else if verb = ("get").toList then
    match args with
    | key :: _ =>
        if key.is_string then
          match key.to_string with
          | none => .panic
          | some ks =>
              match ds ks with
              | none => .ok ((ParserValue.nullBulkString).to_tokens, ds, .halt)
              | some dv =>
                  if has_expired now dv then
                    .ok ((ParserValue.nullBulkString).to_tokens, dsRemove ks ds, .halt)
                  else .ok (dv.parser_value.to_tokens, ds, .more)
        else .ok ((ParserValue.nullBulkString).to_tokens, ds, .halt)
    | [] => .panic
  else if verb = ("command").toList then
    .ok ((ParserValue.simpleString []).to_tokens, ds, .more)
  else if verb = ("info").toList then
    .ok ((ParserValue.bulkString (infoChars sett)).to_tokens, ds, .halt)
  else if verb = ("replconf").toList then
    .ok ((ParserValue.simpleString (("OK").toList)).to_tokens, ds, .more)
  else .panic

/-- Dispatch of one received command (src/data_core.rs lines 128–259): the
first argument's text (`first.to_string().unwrap()`, panicking when absent or
not a string) is lower-cased and matched. -/
def dispatch_one (now : Int) (sett : ReplicationSettings) (ds : DataSet)
    (command : List ParserValue) : PRes (List Token × DataSet × ArmFlow) :=
  match command with
  | [] => .panic
  | first :: rest =>
      match first.to_string with
      | none => .panic
      | some s => dispatchVerb now sett ds (toLowerL s) rest

/-- One full iteration of the receive loop of `DataCore::process_command`
(src/data_core.rs lines 126–262): dispatch, then — only when the arm fell
through rather than `return`ed — run `remove_expired_values` at clock
reading `nowSweep`.  The boolean records whether the loop goes on to receive
the next command (`false` exactly on the `return` paths, which end
`process_command` altogether). -/
def stepCommand (now nowSweep : Int) (sett : ReplicationSettings) (ds : DataSet)
    (command : List ParserValue) : PRes (List Token × DataSet × Bool) :=
  match dispatch_one now sett ds command with
  | .ok (resp, ds2, .more) => .ok (resp, remove_expired_values nowSweep ds2, true)
  | .ok (resp, ds2, .halt) => .ok (resp, ds2, false)
  | .err => .err
  | .panic => .panic

/-- Response tokens of a step outcome, `None` when the step did not reply. -/
def respOf (r : PRes (List Token × DataSet × Bool)) : Option (List Token) :=
  match r with
  | .ok (resp, _, _) => some resp
  | _ => none

/-- Keyspace left by a step outcome (the empty keyspace when the step did
not complete). -/
def dsOf (r : PRes (List Token × DataSet × Bool)) : DataSet :=
  match r with
  | .ok (_, ds, _) => ds
  | _ => emptyDataSet

/-- Whether the receive loop continues after a step outcome. -/
def contOf (r : PRes (List Token × DataSet × Bool)) : Option Bool :=
  match r with
  | .ok (_, _, c) => some c
  | _ => none

/-- One of the fixed-threshold reply waits of the replica handshake
(src/server.rs lines 112–167 and src/data_core.rs lines 290–345): keep
reading until a read returns exactly `target` bytes; the result is the reads
still unconsumed, or `none` when the given reads never satisfy the test and
the loop blocks forever. -/
def handshake_wait (target : Nat) : List Nat → Option (List Nat)
  | [] => none
  | n :: rest => if n = target then some rest else handshake_wait target rest

/-- Steps 2 and 3 of the replica handshake, reply waits only: the
`REPLCONF listening-port` wait (break on a read of 5 bytes, src/server.rs
lines 138–144) followed by the `REPLCONF capa psync2` wait (break on a read
of 5 bytes, src/server.rs lines 161–167). -/
def replconfWaits (reads : List Nat) : Option (List Nat) :=
  match handshake_wait 5 reads with
  | some rest => handshake_wait 5 rest
  | none => none

/-- Modelled from the spec: `Command::is_psync`, referenced by
`client_connection.rs` (line 72) but missing from `src/data_core.rs` in this
snapshot.  Per §3 of the spec a command's verb is "the first element of an
Array", "case-insensitively matched", so the test is whether that element's
text lower-cases to `psync`. -/
def spec_is_psync (command : List ParserValue) : Bool :=
  match command with
  | [] => false
  | first :: _ =>
      match first.to_string with
      | some s => toLowerL s = ("psync").toList
      | none => false

/-- Modelled from the spec: the `PSYNC` response of §4.3's command table,
`+FULLRESYNC <replid> <offset>` built from the replication settings. -/
def spec_psync_response (sett : ReplicationSettings) : List Token :=
  (ParserValue.simpleString
    (("FULLRESYNC ").toList ++ sett.master_replid ++ [(' ')]
      ++ intChars sett.master_reploffset)).to_tokens

/-- Modelled from the spec: the settings-based
`DataCore::process_command(command) -> Vec<Token>` that `client_connection.rs`
calls (lines 74–92) but that is missing from `src/data_core.rs` in this
snapshot.  §4.3's table adds a `PSYNC` row to the dispatch: arguments
ignored, no keyspace mutation, response `+FULLRESYNC <replid> <offset>`, and
a signal to the boundary (the final `Bool`) that a snapshot transfer must
follow; every other verb behaves as the dispatch embedded above from
`src/data_core.rs` and does not request a snapshot. -/
def spec_process_command (now : Int) (sett : ReplicationSettings) (ds : DataSet)
    (command : List ParserValue) : PRes (List Token × DataSet × Bool) :=
  if spec_is_psync command then .ok (spec_psync_response sett, ds, true)
  else
    match dispatch_one now sett ds command with
    | .ok (resp, ds2, _) => .ok (resp, ds2, false)
    | .err => .err
    | .panic => .panic

/-- Characters that the scanner neither treats as a sigil nor as a digit nor
as a carriage return: inside a raw run they are absorbed verbatim. -/
def PlainChar (c : Char) : Prop :=
  specialChar? c = none ∧ c.isDigit = false ∧ c ≠ '\r'

instance : DecidablePred PlainChar := fun _ =>
  inferInstanceAs (Decidable (_ ∧ _ ∧ _))

/-- Protocol values whose wire form survives the scan-and-parse pipeline
unchanged: every string is nonempty, starts with a plain character (so the
scanner opens a raw run for it) and contains no `\r\n` pair (so that run
ends exactly at the frame's separator — later characters may freely be
sigils, digits, or lone carriage returns and line feeds); every array is
nonempty (an empty array's parse leaves its separator unconsumed, which
derails any element that follows it); and the null bulk string does not
occur. -/
inductive Good : ParserValue → Prop where
  | simple (s : List Char) (hne : s ≠ []) (hh : PlainChar s.headI)
      (hcr : hasCRLF s = false) : Good (.simpleString s)
  | bulk (s : List Char) (hne : s ≠ []) (hh : PlainChar s.headI)
      (hcr : hasCRLF s = false) : Good (.bulkString s)
  | array (vs : List ParserValue) (hne : vs ≠ []) (h : ∀ v ∈ vs, Good v) :
      Good (.array vs)

/-- Sample replication settings used by the concrete evaluations: the
defaults of `DataCore::new` (src/data_core.rs lines 104–122) with a fixed
replication id standing in for the random 40-character token. -/
def sett0 : ReplicationSettings :=
  ⟨.master, 0, ("replid").toList, 0, -1, 0, 1048576, 0, 0⟩

/-- Wire characters of a step's response, when the step replied and the
response serialized. -/
def respWire (r : PRes (List Token × DataSet × Bool)) : Option (List Char) :=
  match respOf r with
  | some toks => serialize_tokens toks
  | none => none

theorem tokens_to_array_fuel_succ (ts : List Token) :
    tokens_to_array ts = tokens_to_array_fuel (3 * ts.length + 2 + 1) ts := rfl

/-- C7 counterexample: the claim says every read of at least 5 bytes ends the
`REPLCONF` reply wait, but a 6-byte read does not — the loop goes on waiting
(here: a read sequence consisting of one 6-byte read never ends the wait). -/
theorem c7_counterexample :
    5 ≤ 6 ∧ handshake_wait 5 ((6) :: []) = none ∧ replconfWaits ((6) :: []) = none := by
  decide

/-- C7 (amended): in handshake steps 2 and 3 the replica's wait loop ends
exactly on a read of exactly 5 bytes; a read of any other size — including
more than 5 bytes — leaves the loop waiting on the remaining reads; and once
a 5-byte read arrives, the handshake proceeds to the next step's wait. -/
theorem c7_replconf_wait_exact (n : Nat) (rest : List Nat) :
    (n = 5 → handshake_wait 5 (n :: rest) = some rest)
    ∧ (n ≠ 5 → handshake_wait 5 (n :: rest) = handshake_wait 5 rest)
    ∧ (n = 5 → replconfWaits (n :: rest) = handshake_wait 5 rest) := by
  refine ⟨fun h => by simp [handshake_wait, h], fun h => by simp [handshake_wait, h],
    fun h => by simp [replconfWaits, handshake_wait, h]⟩

theorem c7_replconf_wait_exact_witness :
    handshake_wait 5 ((5) :: (9) :: []) = some ((9) :: [])
    ∧ handshake_wait 5 ((6) :: (9) :: []) = handshake_wait 5 ((9) :: []) := by
  exact ⟨(c7_replconf_wait_exact 5 ((9) :: [])).1 rfl,
    (c7_replconf_wait_exact 6 ((9) :: [])).2.1 (by decide)⟩

/-- C10: when a raw-string run reaches the end of the input without meeting a
`\r\n` pair, the scanner succeeds but emits nothing for those trailing
characters: starting a raw run at a plain character whose remainder has no
`\r\n` produces the empty token sequence. -/
theorem c10_unterminated_raw_run_discarded (c : Char) (rest : List Char)
    (hp : PlainChar c) (hs : splitRaw rest = none) :
    tokenize (c :: rest) = [] := by
  obtain ⟨h1, h2, h3⟩ := hp
  simp [tokenize, tokenizeF, h1, h2, h3, hs]

theorem c10_unterminated_raw_run_discarded_witness :
    tokenize (('a') :: ('b') :: ('c') :: []) = [] :=
  c10_unterminated_raw_run_discarded 'a' (('b') :: ('c') :: []) (by decide) (by decide)

/-- C8: a declared array count of zero parses to an empty `Array` (leaving
even the following separator unconsumed) rather than failing, both at the
`tokens_to_array` level and through `parse_tokens`; the empty `Array`
re-serializes to exactly `*0\r\n`; and a negative declared count makes the
parse fail. -/
theorem c8_empty_array_count (n : Int) (rest : List Token) :
    tokens_to_array (.asterisk :: .number 0 :: rest) = .ok (.array [], rest)
    ∧ parse_tokens ((.asterisk : Token) :: .number 0 :: .separator :: []) = .ok (.array [])
    ∧ serialize_tokens (ParserValue.array []).to_tokens = some (("*0\r\n").toList)
    ∧ (n < 0 → tokens_to_array (.asterisk :: .number n :: rest) = .err) := by
  refine ⟨rfl, rfl, rfl, fun hn => ?_⟩
  rw [tokens_to_array_fuel_succ]
  simp [tokens_to_array_fuel, Token.is_asterisk, Token.is_number, Token.to_i64, hn]

theorem c8_empty_array_count_witness :
    tokens_to_array ((.asterisk : Token) :: .number 0 :: .separator :: []) =
      .ok (.array [], (.separator : Token) :: [])
    ∧ tokens_to_array ((.asterisk : Token) :: .number (-1) :: .separator :: []) = .err := by
  exact ⟨(c8_empty_array_count (-1) ((.separator : Token) :: [])).1,
    (c8_empty_array_count (-1) ((.separator : Token) :: [])).2.2.2 (by decide)⟩

/-- C5: whenever `tokens_to_bulk_string` succeeds on a bulk-string token
sequence, the produced value is exactly the payload reconstructed from the
tokens before the closing separator and the declared length equals that
payload's length — so a declared length that disagrees with the payload can
never produce a (truncated or padded) `BulkString`. -/
theorem c5_bulk_declared_length_matches (n : Int) (rest : List Token)
    (v : ParserValue) (r : List Token)
    (h : tokens_to_bulk_string (.dollar :: .number n :: .separator :: rest) = .ok (v, r)) :
    v = .bulkString (bulkPayload rest) ∧ n = Int.ofNat (bulkPayload rest).length := by
  unfold tokens_to_bulk_string at h
  simp only [Token.is_dollar, Token.is_number, Token.is_separator, Token.to_usize,
    if_true] at h
  split at h
  · exact absurd h (by simp)
  · split at h
    · split at h
      · exact absurd h (by simp)
      · split at h
        · exact absurd h (by simp)
        · rename_i x0 cap hcap hlen
          simp only [PRes.ok.injEq, Prod.mk.injEq] at h
          refine ⟨h.1.symm, ?_⟩
          split at hcap
          · rename_i h0
            simp only [Option.some.injEq] at hcap
            rw [show Int.ofNat (bulkPayload rest).length = ((bulkPayload rest).length : Int) from rfl]
            omega
          · exact absurd hcap (by simp)
    · exact absurd h (by simp)

theorem c5_bulk_declared_length_matches_witness :
    ParserValue.bulkString (('a') :: ('b') :: ('c') :: []) =
      .bulkString (bulkPayload ((.string (('a') :: ('b') :: ('c') :: []) : Token) :: .separator :: []))
    ∧ (3 : Int) =
      Int.ofNat (bulkPayload ((.string (('a') :: ('b') :: ('c') :: []) : Token) :: .separator :: [])).length :=
  c5_bulk_declared_length_matches 3
    ((.string (('a') :: ('b') :: ('c') :: []) : Token) :: .separator :: [])
    (.bulkString (('a') :: ('b') :: ('c') :: [])) [] (by rfl)

/-- C9: the keyspace engine's dispatch depends on the verb only through its
lower-casing, so any case variation of a command's verb produces exactly the
same dispatch outcome — same response tokens, same keyspace, same control
flow — both for the bare dispatch and for the full step with its sweep. -/
theorem c9_case_insensitive_dispatch (now nsw : Int) (sett : ReplicationSettings)
    (ds : DataSet) (v1 v2 : ParserValue) (rest : List ParserValue)
    (s1 s2 : List Char) (h1 : v1.to_string = some s1) (h2 : v2.to_string = some s2)
    (h : toLowerL s1 = toLowerL s2) :
    dispatch_one now sett ds (v1 :: rest) = dispatch_one now sett ds (v2 :: rest)
    ∧ stepCommand now nsw sett ds (v1 :: rest) = stepCommand now nsw sett ds (v2 :: rest) := by
  have hd : dispatch_one now sett ds (v1 :: rest) = dispatch_one now sett ds (v2 :: rest) := by
    simp only [dispatch_one, h1, h2, h]
  exact ⟨hd, by simp only [stepCommand, hd]⟩

theorem c9_case_insensitive_dispatch_witness :
    stepCommand 0 0 sett0 emptyDataSet ((ParserValue.bulkString (("PiNg").toList)) :: []) =
      stepCommand 0 0 sett0 emptyDataSet ((ParserValue.bulkString (("ping").toList)) :: []) :=
  (c9_case_insensitive_dispatch 0 0 sett0 emptyDataSet
    (ParserValue.bulkString (("PiNg").toList)) (ParserValue.bulkString (("ping").toList)) []
    (("PiNg").toList) (("ping").toList) rfl rfl (by decide)).2

/-- C2 evidence: the `info` arm of `process_command` `return`s after sending
its response, so the lazy-expiry sweep never runs — an entry that is already
expired at the sweep's clock reading is still stored afterwards — and the
receive loop exits instead of going on to the next command (the `set`/`get`
null-reply paths `return` the same way).  This contradicts the claim that
every processed command is followed by the sweep and by the next command. -/
theorem c2_info_skips_sweep_and_stops_loop :
    contOf (stepCommand 5 5 sett0
        (dsInsert (("k").toList) ⟨.bulkString (("v").toList), some 0⟩ emptyDataSet)
        ((ParserValue.bulkString (("INFO").toList)) :: [])) = some false
    ∧ dsOf (stepCommand 5 5 sett0
        (dsInsert (("k").toList) ⟨.bulkString (("v").toList), some 0⟩ emptyDataSet)
        ((ParserValue.bulkString (("INFO").toList)) :: [])) (("k").toList) =
      some ⟨.bulkString (("v").toList), some 0⟩
    ∧ has_expired 5 ⟨.bulkString (("v").toList), some 0⟩ = true
    ∧ respOf (stepCommand 5 5 sett0
        (dsInsert (("k").toList) ⟨.bulkString (("v").toList), some 0⟩ emptyDataSet)
        ((ParserValue.bulkString (("INFO").toList)) :: [])) =
      some ((ParserValue.bulkString (infoChars sett0)).to_tokens) :=
  ⟨rfl, rfl, rfl, rfl⟩

/-- C3 (modelled from the spec, see `spec_process_command`): a command array
whose first element's text lower-cases to `psync` is answered with the simple
string `FULLRESYNC <replid> <offset>` built from the replication settings,
the keyspace is untouched, and the boundary is signalled (final `true`) that
a snapshot transfer must follow — the unimplemented-verb branch is not
reached. -/
theorem c3_psync_fullresync (now : Int) (sett : ReplicationSettings) (ds : DataSet)
    (first : ParserValue) (rest : List ParserValue) (s : List Char)
    (h1 : first.to_string = some s) (h2 : toLowerL s = ("psync").toList) :
    spec_process_command now sett ds (first :: rest) =
      .ok ((ParserValue.simpleString
        (("FULLRESYNC ").toList ++ sett.master_replid ++ [(' ')]
          ++ intChars sett.master_reploffset)).to_tokens, ds, true) := by
  simp [spec_process_command, spec_is_psync, spec_psync_response, h1, h2]

theorem c3_psync_fullresync_witness :
    spec_process_command 0 sett0 emptyDataSet
        ((ParserValue.bulkString (("PSYNC").toList)) :: (ParserValue.bulkString (("?").toList))
          :: (ParserValue.bulkString (("-1").toList)) :: []) =
      .ok ((ParserValue.simpleString
        (("FULLRESYNC ").toList ++ sett0.master_replid ++ [(' ')]
          ++ intChars sett0.master_reploffset)).to_tokens, emptyDataSet, true) :=
  c3_psync_fullresync 0 sett0 emptyDataSet (ParserValue.bulkString (("PSYNC").toList))
    ((ParserValue.bulkString (("?").toList)) :: (ParserValue.bulkString (("-1").toList)) :: [])
    (("PSYNC").toList) rfl (by decide)

/-- C6: the engine's responses serialize to exactly the claimed wire bytes:
`SET foo bar` answers `+OK\r\n`; a `GET foo` after that `SET` answers
`$3\r\nbar\r\n`; `GET` of an absent key answers `$-1\r\n`; `PING` answers
`+PONG\r\n`; `ECHO hello` answers `$5\r\nhello\r\n`. -/
theorem c6_serialization_exactness :
    respWire (stepCommand 0 0 sett0 emptyDataSet
        ((ParserValue.bulkString (("SET").toList)) :: (ParserValue.bulkString (("foo").toList))
          :: (ParserValue.bulkString (("bar").toList)) :: [])) = some (("+OK\r\n").toList)
    ∧ respWire (stepCommand 0 0 sett0
        (dsOf (stepCommand 0 0 sett0 emptyDataSet
          ((ParserValue.bulkString (("SET").toList)) :: (ParserValue.bulkString (("foo").toList))
            :: (ParserValue.bulkString (("bar").toList)) :: [])))
        ((ParserValue.bulkString (("GET").toList)) :: (ParserValue.bulkString (("foo").toList)) :: []))
      = some (("$3\r\nbar\r\n").toList)
    ∧ respWire (stepCommand 0 0 sett0 emptyDataSet
        ((ParserValue.bulkString (("GET").toList)) :: (ParserValue.bulkString (("foo").toList)) :: []))
      = some (("$-1\r\n").toList)
    ∧ respWire (stepCommand 0 0 sett0 emptyDataSet
        ((ParserValue.bulkString (("PING").toList)) :: [])) = some (("+PONG\r\n").toList)
    ∧ respWire (stepCommand 0 0 sett0 emptyDataSet
        ((ParserValue.bulkString (("ECHO").toList)) :: (ParserValue.bulkString (("hello").toList)) :: []))
      = some (("$5\r\nhello\r\n").toList) :=
  ⟨rfl, rfl, rfl, rfl, rfl⟩

/-- Evaluation of a `SET k v PX 0` step: the entry is stored with expiry
`now + 0` milliseconds and the step continues into the sweep. -/
theorem set_px0_step (sett : ReplicationSettings) (ds : DataSet) (k : List Char)
    (value : ParserValue) (t1 ts1 : Int) :
    stepCommand t1 ts1 sett ds
        ((ParserValue.bulkString (("SET").toList)) :: (ParserValue.bulkString k) :: value
          :: (ParserValue.bulkString (("PX").toList)) :: (ParserValue.bulkString (("0").toList)) :: []) =
      .ok ((ParserValue.simpleString (("OK").toList)).to_tokens,
        remove_expired_values ts1 (dsInsert k ⟨value, some (t1 + 0 * 1000000)⟩ ds), true) := rfl

/-- Evaluation of a `SET k v` step without a `PX` pair: the entry is stored
with no expiry. -/
theorem set_nopx_step (sett : ReplicationSettings) (ds : DataSet) (k : List Char)
    (value : ParserValue) (t1 ts1 : Int) :
    stepCommand t1 ts1 sett ds
        ((ParserValue.bulkString (("SET").toList)) :: (ParserValue.bulkString k) :: value :: []) =
      .ok ((ParserValue.simpleString (("OK").toList)).to_tokens,
        remove_expired_values ts1 (dsInsert k ⟨value, none⟩ ds), true) := rfl

/-- Evaluation of the `get` dispatch arm as a function of the stored entry. -/
theorem get_dispatch (now : Int) (sett : ReplicationSettings) (ds : DataSet) (k : List Char) :
    dispatch_one now sett ds
        ((ParserValue.bulkString (("GET").toList)) :: (ParserValue.bulkString k) :: []) =
      (match ds k with
       | none => .ok ((ParserValue.nullBulkString).to_tokens, ds, .halt)
       | some dv =>
           if has_expired now dv then
             .ok ((ParserValue.nullBulkString).to_tokens, dsRemove k ds, .halt)
           else .ok (dv.parser_value.to_tokens, ds, .more)) := rfl

/-- C4: `SET k v PX 0` followed by a `GET k` at any strictly later clock
reading answers the null bulk string (whether the entry was already removed
by the `SET`'s own sweep or survives and fails the `GET`'s expiry check);
and an entry stored by `SET k v` without `PX` never expires: a `GET k` at an
arbitrary later reading returns the stored value, continues into the sweep,
and the entry is still stored afterwards. -/
theorem c4_expiry_monotonicity (sett : ReplicationSettings) (ds : DataSet)
    (k : List Char) (value : ParserValue) (t1 ts1 t2 ts2 : Int) (hlt : t1 < t2) :
    respOf (stepCommand t2 ts2 sett
        (dsOf (stepCommand t1 ts1 sett ds
          ((ParserValue.bulkString (("SET").toList)) :: (ParserValue.bulkString k) :: value
            :: (ParserValue.bulkString (("PX").toList)) :: (ParserValue.bulkString (("0").toList)) :: [])))
        ((ParserValue.bulkString (("GET").toList)) :: (ParserValue.bulkString k) :: []))
      = some ((ParserValue.nullBulkString).to_tokens)
    ∧ respOf (stepCommand t2 ts2 sett
        (dsOf (stepCommand t1 ts1 sett ds
          ((ParserValue.bulkString (("SET").toList)) :: (ParserValue.bulkString k) :: value :: [])))
        ((ParserValue.bulkString (("GET").toList)) :: (ParserValue.bulkString k) :: []))
      = some (value.to_tokens)
    ∧ contOf (stepCommand t2 ts2 sett
        (dsOf (stepCommand t1 ts1 sett ds
          ((ParserValue.bulkString (("SET").toList)) :: (ParserValue.bulkString k) :: value :: [])))
        ((ParserValue.bulkString (("GET").toList)) :: (ParserValue.bulkString k) :: []))
      = some true
    ∧ (dsOf (stepCommand t2 ts2 sett
        (dsOf (stepCommand t1 ts1 sett ds
          ((ParserValue.bulkString (("SET").toList)) :: (ParserValue.bulkString k) :: value :: [])))
        ((ParserValue.bulkString (("GET").toList)) :: (ParserValue.bulkString k) :: []))) k
      = some ⟨value, none⟩ := by
  rw [set_px0_step, set_nopx_step]
  rw [show t1 + 0 * 1000000 = t1 by ring]
  simp only [dsOf]
  have hins : (dsInsert k ⟨value, some t1⟩ ds) k = some ⟨value, some t1⟩ := by
    simp [dsInsert]
  have hins2 : (dsInsert k ⟨value, none⟩ ds) k = some ⟨value, none⟩ := by
    simp [dsInsert]
  have hnoexp : ∀ t : Int, has_expired t (⟨value, none⟩ : DataValue) = false := fun _ => rfl
  have hexp2 : has_expired t2 (⟨value, some t1⟩ : DataValue) = true := by
    simp [has_expired]
    omega
  have hk2 : (remove_expired_values ts1 (dsInsert k ⟨value, none⟩ ds)) k = some ⟨value, none⟩ := by
    simp [remove_expired_values, hins2, hnoexp]
  refine ⟨?_, ?_, ?_, ?_⟩
  · by_cases hc : has_expired ts1 (⟨value, some t1⟩ : DataValue)
    · have hk : (remove_expired_values ts1 (dsInsert k ⟨value, some t1⟩ ds)) k = none := by
        simp [remove_expired_values, hins, hc]
      simp only [stepCommand, get_dispatch, hk, respOf]
    · have hk : (remove_expired_values ts1 (dsInsert k ⟨value, some t1⟩ ds)) k =
          some ⟨value, some t1⟩ := by
        simp [remove_expired_values, hins, hc]
      simp only [stepCommand, get_dispatch, hk, hexp2, respOf, if_true]
  · simp only [stepCommand, get_dispatch, hk2, hnoexp, respOf, Bool.false_eq_true, if_false]
  · simp only [stepCommand, get_dispatch, hk2, hnoexp, contOf, Bool.false_eq_true, if_false]
  · simp only [stepCommand, get_dispatch, hk2, hnoexp, dsOf, Bool.false_eq_true, if_false]
    simp only [remove_expired_values, hins2, hnoexp, Bool.false_eq_true, if_false]

theorem c4_expiry_monotonicity_witness :
    respOf (stepCommand 1 1 sett0
        (dsOf (stepCommand 0 0 sett0 emptyDataSet
          ((ParserValue.bulkString (("SET").toList)) :: (ParserValue.bulkString (("foo").toList))
            :: (ParserValue.bulkString (("bar").toList))
            :: (ParserValue.bulkString (("PX").toList)) :: (ParserValue.bulkString (("0").toList)) :: [])))
        ((ParserValue.bulkString (("GET").toList)) :: (ParserValue.bulkString (("foo").toList)) :: []))
      = some ((ParserValue.nullBulkString).to_tokens)
    ∧ respOf (stepCommand 1 1 sett0
        (dsOf (stepCommand 0 0 sett0 emptyDataSet
          ((ParserValue.bulkString (("SET").toList)) :: (ParserValue.bulkString (("foo").toList))
            :: (ParserValue.bulkString (("bar").toList)) :: [])))
        ((ParserValue.bulkString (("GET").toList)) :: (ParserValue.bulkString (("foo").toList)) :: []))
      = some ((ParserValue.bulkString (("bar").toList)).to_tokens) := by
  have h := c4_expiry_monotonicity sett0 emptyDataSet (("foo").toList)
    (ParserValue.bulkString (("bar").toList)) 0 0 1 1 (by decide)
  exact ⟨h.1, h.2.1⟩

theorem digitChar_toNat (d : Nat) (h : d < 10) : (digitChar d).toNat = 48 + d := by
  interval_cases d <;> rfl

theorem digitChar_isDigit (d : Nat) (h : d < 10) : (digitChar d).isDigit = true := by
  interval_cases d <;> rfl

theorem toDigitsRev_lt (f : Nat) : ∀ n d, d ∈ toDigitsRev f n → d < 10 := by
  induction f with
  | zero => intro n d h; simp [toDigitsRev] at h
  | succ f ih =>
      intro n d h
      by_cases hn : n = 0
      · simp [toDigitsRev, hn] at h
      · simp only [toDigitsRev, hn, if_false, List.mem_cons] at h
        rcases h with h | h
        · omega
        · exact ih _ _ h

theorem parseNat_rev_digits (f : Nat) : ∀ n, n ≤ f →
    parseNat (((toDigitsRev f n).reverse).map digitChar) = n := by
  induction f with
  | zero => intro n h; interval_cases n; rfl
  | succ f ih =>
      intro n h
      by_cases hn : n = 0
      · simp [toDigitsRev, hn, parseNat]
      · have hd : n / 10 ≤ f := by omega
        have := ih (n / 10) hd
        simp only [toDigitsRev, hn, if_false, List.reverse_cons, List.map_append,
          List.map_cons, List.map_nil] at *
        rw [parseNat, List.foldl_append]
        rw [parseNat] at this
        simp only [List.foldl_cons, List.foldl_nil]
        rw [this, digitChar_toNat (n % 10) (by omega)]
        omega

theorem parseNat_natChars (n : Nat) : parseNat (natChars n) = n := by
  by_cases hn : n = 0
  · subst hn; rfl
  · simp only [natChars, hn, if_false]
    exact parseNat_rev_digits n n le_rfl

theorem natChars_ne_nil (n : Nat) : natChars n ≠ [] := by
  by_cases hn : n = 0
  · subst hn; simp [natChars]
  · simp only [natChars, hn, if_false]
    intro h
    rw [List.map_eq_nil_iff, List.reverse_eq_nil_iff] at h
    cases n with
    | zero => exact hn rfl
    | succ m => simp [toDigitsRev] at h

theorem natChars_all_digit (n : Nat) : ∀ c ∈ natChars n, c.isDigit = true := by
  by_cases hn : n = 0
  · subst hn; intro c hc; simp [natChars] at hc; subst hc; rfl
  · simp only [natChars, hn, if_false]
    intro c hc
    rw [List.mem_map] at hc
    obtain ⟨d, hd, rfl⟩ := hc
    rw [List.mem_reverse] at hd
    exact digitChar_isDigit d (toDigitsRev_lt n n d hd)

theorem splitRaw_length : ∀ (l s r : List Char), splitRaw l = some (s, r) →
    l.length = s.length + 2 + r.length := by
  intro l
  induction l with
  | nil => intro s r h; simp [splitRaw] at h
  | cons a l2 ih =>
      intro s r h
      cases l2 with
      | nil => simp [splitRaw] at h
      | cons b l3 =>
          rw [splitRaw] at h
          by_cases hc : a = '\r' ∧ b = '\n'
          · rw [if_pos hc] at h
            simp only [Option.some.injEq, Prod.mk.injEq] at h
            obtain ⟨rfl, rfl⟩ := h
            simp
            omega
          · rw [if_neg hc] at h
            cases hsub : splitRaw (b :: l3) with
            | none => rw [hsub] at h; simp at h
            | some p =>
                obtain ⟨s2, r2⟩ := p
                rw [hsub] at h
                simp only [Option.some.injEq, Prod.mk.injEq] at h
                obtain ⟨rfl, rfl⟩ := h
                have := ih s2 r2 hsub
                simp at this ⊢
                omega

theorem hasCRLF_tail (c : Char) (t : List Char) (h : hasCRLF (c :: t) = false) :
    hasCRLF t = false := by
  cases t with
  | nil => rfl
  | cons d r =>
      rw [hasCRLF] at h
      simp only [Bool.or_eq_false_iff] at h
      exact h.2

theorem splitRaw_nocrlf_append : ∀ (t k : List Char), hasCRLF t = false →
    splitRaw (t ++ ('\r') :: ('\n') :: k) = some (t, k) := by
  intro t
  induction t with
  | nil => intro k _; rw [List.nil_append, splitRaw]; simp
  | cons a t2 ih =>
      intro k h
      have ht2 : hasCRLF t2 = false := hasCRLF_tail a t2 h
      cases t2 with
      | nil =>
          rw [List.cons_append, List.nil_append, splitRaw.eq_def]
          simp
          rfl
      | cons b t3 =>
          have hpair : ¬(a = '\r' ∧ b = '\n') := by
            intro hab
            obtain ⟨h1, h2⟩ := hab
            subst h1
            subst h2
            rw [hasCRLF] at h
            simp at h
          have := ih k ht2
          rw [List.cons_append] at this
          rw [List.cons_append, splitRaw.eq_def]
          simp [hpair, this]

theorem digit_run_split : ∀ (t k2 : List Char), (∀ x ∈ t, Char.isDigit x = true) →
    (t ++ ('\r') :: k2).takeWhile Char.isDigit = t
    ∧ (t ++ ('\r') :: k2).dropWhile Char.isDigit = ('\r') :: k2 := by
  intro t
  induction t with
  | nil =>
      intro k2 _
      constructor
      · rw [List.nil_append, List.takeWhile_cons]; simp
      · rw [List.nil_append, List.dropWhile_cons]; simp
  | cons a t2 ih =>
      intro k2 h
      have ha : a.isDigit = true := h a (by simp)
      have ht2 := ih k2 (fun x hx => h x (by simp [hx]))
      constructor
      · rw [List.cons_append, List.takeWhile_cons, ha]
        simp only [if_true, ht2.1]
      · rw [List.cons_append, List.dropWhile_cons, ha]
        simp only [if_true, ht2.2]

theorem tokenizeF_stable : ∀ (f g : Nat) (cs : List Char), cs.length < f → cs.length < g →
    tokenizeF f cs = tokenizeF g cs := by
  intro f
  induction f with
  | zero => intro g cs h; omega
  | succ f ih =>
      intro g cs hf hg
      cases g with
      | zero => omega
      | succ g =>
          cases cs with
          | nil => rfl
          | cons c rest =>
              simp only [List.length_cons] at hf hg
              simp only [tokenizeF]
              cases hsc : specialChar? c with
              | some t =>
                  simp only [hsc]
                  rw [ih g rest (by omega) (by omega)]
              | none =>
                  simp only [hsc]
                  by_cases hd : c.isDigit
                  · simp only [hd, if_true]
                    have hlen : (rest.dropWhile Char.isDigit).length ≤ rest.length :=
                      (List.dropWhile_sublist Char.isDigit).length_le
                    rw [ih g (rest.dropWhile Char.isDigit) (by omega) (by omega)]
                  · simp only [hd, Bool.false_eq_true, if_false]
                    by_cases hr : c = '\r'
                    · simp only [hr, if_true]
                      cases rest with
                      | nil => rw [ih g [] (by omega) (by omega)]
                      | cons d rest2 =>
                          simp only [List.length_cons] at hf hg
                          by_cases hdn : d = '\n'
                          · simp only [hdn, if_true]
                            rw [ih g rest2 (by omega) (by omega)]
                          · simp only [hdn, if_false]
                            rw [ih g (d :: rest2) (by simp; omega) (by simp; omega)]
                    · simp only [hr, if_false]
                      cases hsp : splitRaw rest with
                      | none => simp only [hsp]
                      | some p =>
                          obtain ⟨s, r⟩ := p
                          simp only [hsp]
                          have := splitRaw_length rest s r hsp
                          rw [ih g r (by omega) (by omega)]

theorem special_of_digit (c : Char) (h : c.isDigit = true) : specialChar? c = none := by
  unfold specialChar?
  rw [if_neg (show c ≠ '+' from fun hc => by subst hc; exact absurd h (by decide))]
  rw [if_neg (show c ≠ '-' from fun hc => by subst hc; exact absurd h (by decide))]
  rw [if_neg (show c ≠ ':' from fun hc => by subst hc; exact absurd h (by decide))]
  rw [if_neg (show c ≠ '$' from fun hc => by subst hc; exact absurd h (by decide))]
  rw [if_neg (show c ≠ '*' from fun hc => by subst hc; exact absurd h (by decide))]
  rw [if_neg (show c ≠ '_' from fun hc => by subst hc; exact absurd h (by decide))]
  rw [if_neg (show c ≠ '#' from fun hc => by subst hc; exact absurd h (by decide))]
  rw [if_neg (show c ≠ ',' from fun hc => by subst hc; exact absurd h (by decide))]
  rw [if_neg (show c ≠ '(' from fun hc => by subst hc; exact absurd h (by decide))]
  rw [if_neg (show c ≠ '!' from fun hc => by subst hc; exact absurd h (by decide))]
  rw [if_neg (show c ≠ '=' from fun hc => by subst hc; exact absurd h (by decide))]
  rw [if_neg (show c ≠ '%' from fun hc => by subst hc; exact absurd h (by decide))]
  rw [if_neg (show c ≠ '~' from fun hc => by subst hc; exact absurd h (by decide))]
  rw [if_neg (show c ≠ '>' from fun hc => by subst hc; exact absurd h (by decide))]

theorem tokenize_cons_special (c : Char) (t : Token) (cs : List Char)
    (h : specialChar? c = some t) : tokenize (c :: cs) = t :: tokenize cs := by
  simp only [tokenize, List.length_cons, tokenizeF, h]

theorem tokenize_crlf (cs : List Char) :
    tokenize (('\r') :: ('\n') :: cs) = Token.separator :: tokenize cs := by
  have e1 : specialChar? ('\r') = none := rfl
  have e2 : Char.isDigit ('\r') = false := rfl
  have h0 : tokenize (('\r') :: ('\n') :: cs) =
      tokenizeF (cs.length + 1 + 1 + 1) (('\r') :: ('\n') :: cs) := by
    simp [tokenize]
  rw [h0, tokenizeF]
  simp only [e1, e2, Bool.false_eq_true, if_false, if_true, ite_true]
  rw [tokenizeF_stable (cs.length + 1 + 1) (cs.length + 1) cs (by omega) (by omega)]
  rfl

theorem tokenize_digit (c : Char) (cs : List Char) (h : c.isDigit = true) :
    tokenize (c :: cs) =
      Token.number (Int.ofNat (parseNat (c :: cs.takeWhile Char.isDigit)))
        :: tokenize (cs.dropWhile Char.isDigit) := by
  have hs := special_of_digit c h
  have hlen : (cs.dropWhile Char.isDigit).length ≤ cs.length :=
    (List.dropWhile_sublist Char.isDigit).length_le
  simp only [tokenize, List.length_cons, tokenizeF, hs, h, if_true]
  rw [tokenizeF_stable (cs.length + 1) ((cs.dropWhile Char.isDigit).length + 1)
    (cs.dropWhile Char.isDigit) (by omega) (by omega)]

theorem tokenize_raw (c : Char) (cs s r : List Char) (h1 : specialChar? c = none)
    (h2 : c.isDigit = false) (h3 : c ≠ '\r') (hsp : splitRaw cs = some (s, r)) :
    tokenize (c :: cs) = Token.string (c :: s) :: Token.separator :: tokenize r := by
  have hlen := splitRaw_length cs s r hsp
  simp only [tokenize, List.length_cons, tokenizeF, h1, h2, h3, hsp, Bool.false_eq_true,
    if_false]
  rw [tokenizeF_stable (cs.length + 1) (r.length + 1) r (by omega) (by omega)]

theorem tokenize_string_run (s k : List Char) (hne : s ≠ []) (hh : PlainChar s.headI)
    (hcr : hasCRLF s = false) :
    tokenize (s ++ ('\r') :: ('\n') :: k) = Token.string s :: Token.separator :: tokenize k := by
  cases s with
  | nil => exact absurd rfl hne
  | cons c t =>
      have hc : PlainChar c := hh
      have hsp := splitRaw_nocrlf_append t k (hasCRLF_tail c t hcr)
      rw [List.cons_append]
      exact tokenize_raw c (t ++ ('\r') :: ('\n') :: k) t k hc.1 hc.2.1 hc.2.2 hsp

theorem tokenize_number_run (n : Nat) (k : List Char) :
    tokenize (natChars n ++ ('\r') :: k) =
      Token.number (Int.ofNat n) :: tokenize (('\r') :: k) := by
  cases hnc : natChars n with
  | nil => exact absurd hnc (natChars_ne_nil n)
  | cons c t =>
      have hdigs := natChars_all_digit n
      rw [hnc] at hdigs
      have hc : c.isDigit = true := hdigs c (by simp)
      have ht : ∀ x ∈ t, x.isDigit = true := fun x hx => hdigs x (by simp [hx])
      have hrun := digit_run_split t k ht
      rw [List.cons_append, tokenize_digit c (t ++ ('\r') :: k) hc, hrun.1, hrun.2]
      have : parseNat (c :: t) = n := by rw [← hnc, parseNat_natChars]
      rw [this]

theorem serializeChars_cons (t : Token) (ts : List Token) :
    serializeChars (t :: ts) = tokenChars t ++ serializeChars ts := by
  simp [serializeChars]

theorem serializeChars_append (a b : List Token) :
    serializeChars (a ++ b) = serializeChars a ++ serializeChars b := by
  simp [serializeChars]

theorem intChars_ofNat (n : Nat) : intChars (Int.ofNat n) = natChars n := by
  simp [intChars]

theorem wire_tokenize_list (vs : List ParserValue)
    (hall : ∀ v ∈ vs, ∀ k, tokenize (serializeChars v.to_tokens ++ k) = v.to_tokens ++ tokenize k) :
    ∀ k, tokenize (serializeChars (listToTokens vs) ++ k) = listToTokens vs ++ tokenize k := by
  induction vs with
  | nil => intro k; simp [listToTokens, serializeChars]
  | cons v tl ih =>
      intro k
      rw [show listToTokens (v :: tl) = v.to_tokens ++ listToTokens tl from rfl]
      rw [serializeChars_append, List.append_assoc]
      rw [hall v (by simp) (serializeChars (listToTokens tl) ++ k)]
      rw [ih (fun w hw => hall w (by simp [hw])) k]
      rw [List.append_assoc]

theorem wire_tokenize (v : ParserValue) (hg : Good v) :
    ∀ k, tokenize (serializeChars v.to_tokens ++ k) = v.to_tokens ++ tokenize k := by
  induction hg with
  | simple s hne hh hcr =>
      intro k
      rw [show (ParserValue.simpleString s).to_tokens =
        [Token.plus, Token.string s, Token.separator] from rfl]
      rw [show serializeChars [Token.plus, Token.string s, Token.separator] =
        ('+') :: (s ++ (('\r') :: ('\n') :: [])) from by
          simp [serializeChars, tokenChars]]
      simp only [List.cons_append, List.append_assoc, List.nil_append]
      rw [tokenize_cons_special '+' Token.plus _ rfl]
      rw [tokenize_string_run s k hne hh hcr]
  | bulk s hne hh hcr =>
      intro k
      rw [show (ParserValue.bulkString s).to_tokens =
        [Token.dollar, Token.number (Int.ofNat s.length), Token.separator,
          Token.string s, Token.separator] from rfl]
      rw [show serializeChars [Token.dollar, Token.number (Int.ofNat s.length),
          Token.separator, Token.string s, Token.separator] =
        ('$') :: (intChars (Int.ofNat s.length)
          ++ (('\r') :: ('\n') :: (s ++ (('\r') :: ('\n') :: [])))) from by
          simp [serializeChars, tokenChars]]
      rw [intChars_ofNat]
      simp only [List.cons_append, List.append_assoc, List.nil_append]
      rw [tokenize_cons_special '$' Token.dollar _ rfl]
      rw [show natChars s.length ++ (('\r') :: ('\n') :: (s ++ (('\r') :: ('\n') :: k))) =
        natChars s.length ++ (('\r') :: (('\n') :: (s ++ (('\r') :: ('\n') :: k)))) from rfl]
      rw [tokenize_number_run s.length (('\n') :: (s ++ (('\r') :: ('\n') :: k)))]
      rw [tokenize_crlf (s ++ (('\r') :: ('\n') :: k))]
      rw [tokenize_string_run s k hne hh hcr]
  | array vs hne hall ih =>
      intro k
      rw [show (ParserValue.array vs).to_tokens =
        Token.asterisk :: Token.number (Int.ofNat vs.length) :: Token.separator
          :: listToTokens vs from rfl]
      rw [show serializeChars (Token.asterisk :: Token.number (Int.ofNat vs.length)
          :: Token.separator :: listToTokens vs) =
        ('*') :: (intChars (Int.ofNat vs.length)
          ++ (('\r') :: ('\n') :: serializeChars (listToTokens vs))) from by
          rw [serializeChars_cons, serializeChars_cons, serializeChars_cons]
          simp [tokenChars]]
      rw [intChars_ofNat]
      simp only [List.cons_append, List.append_assoc, List.nil_append]
      rw [tokenize_cons_special '*' Token.asterisk _ rfl]
      rw [tokenize_number_run vs.length (('\n') :: (serializeChars (listToTokens vs) ++ k))]
      rw [tokenize_crlf (serializeChars (listToTokens vs) ++ k)]
      rw [wire_tokenize_list vs ih k]

theorem parse_simple_shape (s : List Char) (rest : List Token) :
    tokens_to_simple_string (Token.plus :: Token.string s :: Token.separator :: rest) =
      .ok (.simpleString s, rest) := rfl

theorem parse_bulk_shape (s : List Char) (rest : List Token) :
    tokens_to_bulk_string (Token.dollar :: Token.number (Int.ofNat s.length)
        :: Token.separator :: Token.string s :: Token.separator :: rest) =
      .ok (.bulkString s, rest) := by
  have h1 : (0 : Int) ≤ Int.ofNat s.length := Int.ofNat_nonneg s.length
  simp only [tokens_to_bulk_string, Token.is_dollar, Token.is_number, Token.is_separator,
    Token.is_string, Token.to_usize, if_true, List.dropWhile_cons, List.dropWhile_nil,
    bulkPayload, List.takeWhile_cons, reconstructChars, if_pos h1, Int.toNat_ofNat]
  simp [reconstructChars]

theorem to_tokens_simple_shape (s : List Char) :
    (ParserValue.simpleString s).to_tokens = [Token.plus, Token.string s, Token.separator] := rfl

theorem to_tokens_bulk_shape (s : List Char) :
    (ParserValue.bulkString s).to_tokens = [Token.dollar, Token.number (Int.ofNat s.length),
      Token.separator, Token.string s, Token.separator] := rfl

theorem to_tokens_array_shape (vs : List ParserValue) :
    (ParserValue.array vs).to_tokens = Token.asterisk :: Token.number (Int.ofNat vs.length)
      :: Token.separator :: listToTokens vs := rfl

theorem to_tokens_length_ge3 (v : ParserValue) : 3 ≤ v.to_tokens.length := by
  cases v with
  | simpleString s => simp [to_tokens_simple_shape]
  | bulkString s => simp [to_tokens_bulk_shape]
  | array vs => simp [to_tokens_array_shape]
  | nullBulkString => simp [ParserValue.to_tokens]

theorem listToTokens_cons (v : ParserValue) (tl : List ParserValue) :
    listToTokens (v :: tl) = v.to_tokens ++ listToTokens tl := rfl

theorem good_parse_elems (vs : List ParserValue)
    (hall : ∀ v ∈ vs, ∀ (f : Nat) (rest : List Token), v.to_tokens.length ≤ f →
      parse_elem_fuel f (v.to_tokens ++ rest) = .ok (v, rest)) :
    ∀ (f : Nat) (rest : List Token), (listToTokens vs).length + 1 ≤ f →
      parse_elems_fuel f vs.length (listToTokens vs ++ rest) = .ok (vs, rest) := by
  induction vs with
  | nil =>
      intro f rest hf
      cases f with
      | zero => omega
      | succ f => rfl
  | cons v tl ih =>
      intro f rest hf
      rw [listToTokens_cons, List.length_append] at hf
      have hv3 := to_tokens_length_ge3 v
      cases f with
      | zero => omega
      | succ f =>
          rw [show listToTokens (v :: tl) ++ rest =
            v.to_tokens ++ (listToTokens tl ++ rest) from by
              rw [listToTokens_cons, List.append_assoc]]
          rw [show (v :: tl).length = tl.length + 1 from by simp]
          rw [parse_elems_fuel]
          rw [hall v (by simp) f (listToTokens tl ++ rest) (by omega)]
          simp only []
          rw [ih (fun w hw => hall w (by simp [hw])) f rest (by omega)]

theorem good_parse_elem (v : ParserValue) (hg : Good v) :
    ∀ (f : Nat) (rest : List Token), v.to_tokens.length ≤ f →
      parse_elem_fuel f (v.to_tokens ++ rest) = .ok (v, rest) := by
  induction hg with
  | simple s hne hh hcr =>
      intro f rest hf
      rw [to_tokens_simple_shape] at hf ⊢
      simp only [List.length_cons, List.length_nil] at hf
      cases f with
      | zero => omega
      | succ f => exact parse_simple_shape s rest
  | bulk s hne hh hcr =>
      intro f rest hf
      rw [to_tokens_bulk_shape] at hf ⊢
      simp only [List.length_cons, List.length_nil] at hf
      cases f with
      | zero => omega
      | succ f => exact parse_bulk_shape s rest
  | array vs hne hall ih =>
      intro f rest hf
      rw [to_tokens_array_shape] at hf ⊢
      simp only [List.cons_append]
      simp only [List.length_cons] at hf
      have hcast : Int.ofNat vs.length = (vs.length : Int) := rfl
      have hlenne : vs.length ≠ 0 := fun h0 => hne (List.length_eq_zero.mp h0)
      have h1 : ¬(Int.ofNat vs.length < 0) := by rw [hcast]; omega
      have h2 : ¬(Int.ofNat vs.length = 0) := by rw [hcast]; omega
      cases f with
      | zero => omega
      | succ f =>
          cases f with
          | zero => omega
          | succ f =>
              rw [show parse_elem_fuel (f + 1 + 1)
                  (Token.asterisk :: Token.number (Int.ofNat vs.length) :: Token.separator
                    :: (listToTokens vs ++ rest)) =
                tokens_to_array_fuel (Nat.succ f)
                  (Token.asterisk :: Token.number (Int.ofNat vs.length) :: Token.separator
                    :: (listToTokens vs ++ rest)) from rfl]
              rw [tokens_to_array_fuel.eq_4 f Token.asterisk
                (Token.number (Int.ofNat vs.length))
                (Token.separator :: (listToTokens vs ++ rest))]
              simp only [Token.is_asterisk, Token.is_number, Token.to_i64, if_true,
                if_neg h1, if_neg h2, Token.is_separator, Int.toNat_ofNat]
              rw [show (Int.ofNat vs.length).toNat = vs.length from rfl]
              rw [good_parse_elems vs ih f rest (by omega)]

theorem parse_tokens_good (v : ParserValue) (hg : Good v) : parse_tokens v.to_tokens = .ok v := by
  cases hg with
  | simple s hne hh hcr => rfl
  | bulk s hne hh hcr =>
      have h := parse_bulk_shape s []
      rw [to_tokens_bulk_shape]
      simp only [parse_tokens, h]
  | array vs hne hall =>
      have hp := good_parse_elem (ParserValue.array vs) (Good.array vs hne hall)
      have h := hp (3 * (ParserValue.array vs).to_tokens.length + 4) [] (by omega)
      rw [List.append_nil] at h
      have e : tokens_to_array (ParserValue.array vs).to_tokens = .ok (.array vs, []) := by
        rw [tokens_to_array_fuel_succ]
        exact h
      rw [to_tokens_array_shape] at e ⊢
      simp only [parse_tokens, e]

theorem tokenize_wire_good (v : ParserValue) (hg : Good v) :
    tokenize (serializeChars v.to_tokens) = v.to_tokens := by
  have h := wire_tokenize v hg []
  rw [List.append_nil] at h
  rw [h, show tokenize [] = [] from rfl, List.append_nil]

/-- C1 (amended): serializing to wire text, re-tokenizing and re-parsing
returns exactly the original Protocol Value for every value of the `Good`
class: each string (simple or bulk) is nonempty, starts with a character
that is not a RESP sigil, not a digit and not a carriage return, and
contains no `\r\n` pair (its other characters are unrestricted); each
array is nonempty; the null bulk string does not occur.  This is a
sufficient condition only — nothing is asserted about values outside the
class — and the original universal claim is refuted separately at
`NullBulkString`. -/
theorem c1_roundtrip_good (v : ParserValue) (hg : Good v) :
    serialize_tokens v.to_tokens = some (serializeChars v.to_tokens)
    ∧ parse_tokens (tokenize (serializeChars v.to_tokens)) = .ok v := by
  constructor
  · unfold serialize_tokens
    rw [if_neg]
    have := to_tokens_length_ge3 v
    omega
  · rw [tokenize_wire_good v hg]
    exact parse_tokens_good v hg

theorem c1_roundtrip_good_witness :
    parse_tokens (tokenize (serializeChars (ParserValue.array
        [ParserValue.bulkString (("a1").toList),
          ParserValue.simpleString (("k$v").toList)]).to_tokens)) =
      .ok (ParserValue.array [ParserValue.bulkString (("a1").toList),
        ParserValue.simpleString (("k$v").toList)]) :=
  (c1_roundtrip_good
    (ParserValue.array [ParserValue.bulkString (("a1").toList),
      ParserValue.simpleString (("k$v").toList)])
    (Good.array _ (by simp) (fun w hw => by
      simp only [List.mem_cons, List.mem_singleton, List.not_mem_nil, or_false] at hw
      rcases hw with hw | hw
      · subst hw
        exact Good.bulk _ (by decide) (by decide) (by decide)
      · subst hw
        exact Good.simple _ (by decide) (by decide) (by decide)))).2

/-- C1 counterexample: the round trip fails at `NullBulkString`: its wire
form `$-1\r\n` re-tokenizes with a `Hyphen` marker in place of a number, so
the parse returns `None` instead of the original value. -/
theorem c1_roundtrip_counterexample :
    serialize_tokens (ParserValue.nullBulkString).to_tokens = some (("$-1\r\n").toList)
    ∧ parse_tokens (tokenize (("$-1\r\n").toList)) = .err :=
  ⟨rfl, rfl⟩
